import Mathlib

/-!
Shallow embedding of the Spotify data-transformation pipeline
(`src/transformer.ts`, `src/index.ts`, `src/uploadToS3.ts`,
`src/config/config.ts`).

JavaScript strings are modelled as Lean `String` / `List Char`; JavaScript
numbers as an inductive `JsNum` (NaN, the two infinities, and finite values
modelled as exact rationals); records decoded from a CSV row (objects
produced by `csv-parser`) as association lists from column name to raw
string value.  Exceptions thrown while processing a single record are
modelled explicitly: the only statements in `FilterTransform._transform`
that can throw after the filter check are `JSON.parse` (caught by the inner
try/catch, triggering the fallback) and the `id.trim()` /
`idArtistsArray.forEach` calls (caught by the outer try/catch, dropping the
record after any already-performed `Set` insertions persist).
-/

/-! ### JavaScript string primitives -/

/-- The WhiteSpace and LineTerminator characters recognised by
`String.prototype.trim` and by `Number(string)` conversion. -/
def isJsWhitespace (c : Char) : Bool :=
  c = ' ' || c = '\t' || c = '\n' || c = '\r' || c = '\x0b' || c = '\x0c' ||
  c.toNat = 0xa0 || c.toNat = 0x1680 ||
  (0x2000 ≤ c.toNat && c.toNat ≤ 0x200a) ||
  c.toNat = 0x2028 || c.toNat = 0x2029 || c.toNat = 0x202f ||
  c.toNat = 0x205f || c.toNat = 0x3000 || c.toNat = 0xfeff

/-- `String.prototype.trim` on a character list: drop leading and trailing
whitespace. -/
def jsTrimList (l : List Char) : List Char :=
  ((l.dropWhile isJsWhitespace).reverse.dropWhile isJsWhitespace).reverse

/-- `String.prototype.trim`. -/
def jsTrim (s : String) : String :=
  (jsTrimList s.toList).asString

/-- ASCII decimal digit. -/
def isAsciiDigit (c : Char) : Bool :=
  48 ≤ c.toNat && c.toNat ≤ 57

def digitVal (c : Char) : Nat := c.toNat - 48

/-- Value of a big-endian list of decimal digits. -/
def digitsToNat (l : List Char) : Nat :=
  l.foldl (fun n c => n * 10 + digitVal c) 0

/-! ### JavaScript number conversion (`Number(string)`)

Finite doubles are modelled as exact rationals; `NaN`, `Infinity` and
`-Infinity` are explicit constructors.  The grammar follows the
`StringNumericLiteral` production used by `Number`: optional whitespace,
then either a signed decimal literal (digits, optional fraction, optional
exponent, or `Infinity`), or an unsigned binary / octal / hex literal. -/

inductive JsNum where
  | nan : JsNum
  | posInf : JsNum
  | negInf : JsNum
  | fin : ℚ → JsNum
deriving DecidableEq

def JsNum.isNaN : JsNum → Bool
  | .nan => true
  | _ => false

/-- `x < q` where `x` is a JS number and `q` a finite numeric literal. -/
def JsNum.ltQ : JsNum → ℚ → Bool
  | .nan, _ => false
  | .posInf, _ => false
  | .negInf, _ => true
  | .fin x, q => decide (x < q)

/-- `x <= q` where `x` is a JS number and `q` a finite numeric literal. -/
def JsNum.leQ : JsNum → ℚ → Bool
  | .nan, _ => false
  | .posInf, _ => false
  | .negInf, _ => true
  | .fin x, q => decide (x ≤ q)

/-- `x >= q` where `x` is a JS number and `q` a finite numeric literal. -/
def JsNum.geQ : JsNum → ℚ → Bool
  | .nan, _ => false
  | .posInf, _ => true
  | .negInf, _ => false
  | .fin x, q => decide (q ≤ x)

/-- Exact value of a decimal literal `mant / 10^fracLen * 10^(sign emag)`,
built with `mkRat` over integer arithmetic. -/
def decScaled (mant fracLen : Nat) (eneg : Bool) (emag : Nat) : ℚ :=
  mkRat (mant * 10 ^ (if eneg then 0 else emag))
    (10 ^ (fracLen + (if eneg then emag else 0)))

/-- Parse an unsigned run of decimal digits with optional fraction,
returning the mantissa digits value, the fraction length and the unconsumed
input.  Fails if there is no digit at all (neither integer nor fractional
part). -/
def parseDecMantissa (l : List Char) : Option (Nat × Nat × List Char) :=
  let ip := l.takeWhile isAsciiDigit
  let r1 := l.dropWhile isAsciiDigit
  match r1 with
  | '.' :: r2 =>
    let fp := r2.takeWhile isAsciiDigit
    let r3 := r2.dropWhile isAsciiDigit
    if ip.isEmpty && fp.isEmpty then none
    else some (digitsToNat (ip ++ fp), fp.length, r3)
  | _ =>
    if ip.isEmpty then none else some (digitsToNat ip, 0, r1)

/-- The tail of a decimal exponent: optional sign followed by a non-empty
run of digits, which must exhaust the input. -/
def applyDecExponentTail (mant fracLen : Nat) (r : List Char) : Option ℚ :=
  let (eneg, ds) :=
    match r with
    | '+' :: t => (false, t)
    | '-' :: t => (true, t)
    | t => (false, t)
  if ds.isEmpty || !ds.all isAsciiDigit then none
  else some (decScaled mant fracLen eneg (digitsToNat ds))

/-- Apply an optional decimal exponent (`e`/`E`, optional sign, digits);
the whole remaining input must be consumed. -/
def applyDecExponent (mant fracLen : Nat) (l : List Char) : Option ℚ :=
  match l with
  | [] => some (decScaled mant fracLen false 0)
  | 'e' :: r => applyDecExponentTail mant fracLen r
  | 'E' :: r => applyDecExponentTail mant fracLen r
  | _ => none

/-- Unsigned decimal literal: `Infinity` or mantissa + optional exponent. -/
def parseUnsignedDec (l : List Char) : Option JsNum :=
  if l = "Infinity".toList then some JsNum.posInf
  else
    match parseDecMantissa l with
    | none => none
    | some (mant, fracLen, r) => (applyDecExponent mant fracLen r).map JsNum.fin

/-- Signed decimal literal. -/
def parseSignedDec (l : List Char) : JsNum :=
  match l with
  | '+' :: rest => (parseUnsignedDec rest).getD JsNum.nan
  | '-' :: rest =>
    match parseUnsignedDec rest with
    | some JsNum.posInf => JsNum.negInf
    | some (JsNum.fin q) => JsNum.fin (-q)
    | _ => JsNum.nan
  | _ => (parseUnsignedDec l).getD JsNum.nan

def isHexDigit (c : Char) : Bool :=
  isAsciiDigit c || (97 ≤ c.toNat && c.toNat ≤ 102) || (65 ≤ c.toNat && c.toNat ≤ 70)

def hexVal (c : Char) : Nat :=
  if isAsciiDigit c then digitVal c
  else if 97 ≤ c.toNat then c.toNat - 87
  else c.toNat - 55

/-- Unsigned non-decimal integer literal body in the given radix. -/
def parseRadix (digitOk : Char → Bool) (val : Char → Nat) (radix : Nat)
    (ds : List Char) : JsNum :=
  if ds.isEmpty || !ds.all digitOk then JsNum.nan
  else JsNum.fin (mkRat (ds.foldl (fun n c => n * radix + val c) 0 : Nat) 1)

/-- `Number(s)` for a JavaScript string `s`. -/
def jsStringToNumber (s : String) : JsNum :=
  match jsTrimList s.toList with
  | [] => JsNum.fin 0
  | '0' :: x :: rest =>
    if x = 'x' || x = 'X' then parseRadix isHexDigit hexVal 16 rest
    else if x = 'o' || x = 'O' then
      parseRadix (fun c => 48 ≤ c.toNat && c.toNat ≤ 55) digitVal 8 rest
    else if x = 'b' || x = 'B' then
      parseRadix (fun c => c = '0' || c = '1') digitVal 2 rest
    else parseSignedDec ('0' :: x :: rest)
  | l => parseSignedDec l

/-! ### Field parsers (`src/transformer.ts`) -/

/-- `transformDanceability` (transformer.ts lines 55-63).  The argument is
`track.danceability`, which may be absent (`undefined`).  `!value` is true
exactly for `undefined` and the empty string. -/
def transformDanceability (value : Option String) : String :=
  match value with
  | none => ""
  | some v =>
    if v = "" then ""
    else if (jsStringToNumber v).isNaN then ""
    else if (jsStringToNumber v).ltQ (mkRat 1 2) then "Low"
    else if (jsStringToNumber v).leQ (mkRat 3 5) then "Medium"
    else if (jsStringToNumber v).leQ 1 then "High"
    else ""

structure ReleaseDate where
  year : String
  month : String
  day : String
deriving DecidableEq, Repr

/-- Printable ASCII range `\x20`-`\x7E`; `parseReleaseDate` first removes
every character outside it. -/
def isPrintableAscii (c : Char) : Bool :=
  32 ≤ c.toNat && c.toNat ≤ 126

/-- `String.prototype.split` with a single-character separator, e.g.
`"a-b".split("-")`.  `"".split(sep)` is `[""]`. -/
def splitOnChar (sep : Char) : List Char → List (List Char)
  | [] => [[]]
  | c :: rest =>
    let r := splitOnChar sep rest
    if c = sep then [] :: r
    else
      match r with
      | h :: t => (c :: h) :: t
      | [] => [[c]]

/-- The regex test `^\d{4}-\d{2}-\d{2}$`. -/
def matchesYMD (l : List Char) : Bool :=
  match l with
  | [a, b, c, d, e, f, g, h, i, j] =>
    isAsciiDigit a && isAsciiDigit b && isAsciiDigit c && isAsciiDigit d &&
    e = '-' && isAsciiDigit f && isAsciiDigit g && h = '-' &&
    isAsciiDigit i && isAsciiDigit j
  | _ => false

/-- `lo ≤ length ≤ hi` and all characters are decimal digits. -/
def digitsLen (lo hi : Nat) (l : List Char) : Bool :=
  lo ≤ l.length && l.length ≤ hi && l.all isAsciiDigit

/-- The regex test `^\d{1,2}\/\d{1,2}\/\d{4}$`: the string splits on `/`
into exactly three runs of digits of widths 1-2, 1-2 and 4. -/
def matchesDMY (l : List Char) : Bool :=
  match splitOnChar '/' l with
  | [d, m, y] => digitsLen 1 2 d && digitsLen 1 2 m && digitsLen 4 4 y
  | _ => false

/-- The format-matching body of `parseReleaseDate`, applied to the cleaned
string: try `YYYY-MM-DD`, then `D{1,2}/M{1,2}/YYYY` (day/month/year), then
a bare `YYYY`, falling back to all-empty fields. -/
def parseReleaseDateCore (cleaned : List Char) : ReleaseDate :=
  if matchesYMD cleaned then
    match splitOnChar '-' cleaned with
    | [y, m, d] => ⟨y.asString, m.asString, d.asString⟩
    | _ => ⟨"", "", ""⟩
  else if matchesDMY cleaned then
    match splitOnChar '/' cleaned with
    | [dd, mm, yyyy] => ⟨yyyy.asString, mm.asString, dd.asString⟩
    | _ => ⟨"", "", ""⟩
  else if digitsLen 4 4 cleaned then ⟨cleaned.asString, "", ""⟩
  else ⟨"", "", ""⟩

/-- `parseReleaseDate` (transformer.ts lines 29-47): strip non-printable
ASCII, trim, then match the three formats in order.  Total: malformed
dates degrade to blank fields, no exception is raised. -/
def parseReleaseDate (dateStr : String) : ReleaseDate :=
  parseReleaseDateCore (jsTrimList (dateStr.toList.filter isPrintableAscii))

/-! ### JSON values and `JSON.parse`

`FilterTransform._transform` normalizes `id_artists` by replacing every
single quote with a double quote and feeds the result to `JSON.parse`.  The
parser below follows the JSON grammar (RFC 8259): values are objects,
arrays, strings, numbers, `true`, `false` and `null`; whitespace is space,
tab, LF and CR.  Mutual recursion over nested values uses a fuel argument;
the top-level call supplies more fuel than the input length, which is
always sufficient since every recursive call consumes input. -/

inductive Json where
  | jnull : Json
  | jbool : Bool → Json
  | jnum : ℚ → Json
  | jstr : String → Json
  | jarr : List Json → Json
  | jobj : List (String × Json) → Json

def isJsonWs (c : Char) : Bool :=
  c = ' ' || c = '\t' || c = '\n' || c = '\r'

def skipJsonWs (l : List Char) : List Char :=
  l.dropWhile isJsonWs

def hex4Val (a b c d : Char) : Nat :=
  ((hexVal a * 16 + hexVal b) * 16 + hexVal c) * 16 + hexVal d

/-- JSON string body after the opening quote: characters up to the closing
quote, processing escape sequences; raw control characters are rejected. -/
def parseJsonStringBody : List Char → List Char → Option (String × List Char)
  | [], _ => none
  | '"' :: rest, acc => some (acc.reverse.asString, rest)
  | '\\' :: '"' :: r, acc => parseJsonStringBody r ('"' :: acc)
  | '\\' :: '\\' :: r, acc => parseJsonStringBody r ('\\' :: acc)
  | '\\' :: '/' :: r, acc => parseJsonStringBody r ('/' :: acc)
  | '\\' :: 'b' :: r, acc => parseJsonStringBody r ('\x08' :: acc)
  | '\\' :: 'f' :: r, acc => parseJsonStringBody r ('\x0c' :: acc)
  | '\\' :: 'n' :: r, acc => parseJsonStringBody r ('\n' :: acc)
  | '\\' :: 'r' :: r, acc => parseJsonStringBody r ('\r' :: acc)
  | '\\' :: 't' :: r, acc => parseJsonStringBody r ('\t' :: acc)
  | '\\' :: 'u' :: a :: b :: c :: d :: r, acc =>
    if isHexDigit a && isHexDigit b && isHexDigit c && isHexDigit d then
      parseJsonStringBody r (Char.ofNat (hex4Val a b c d) :: acc)
    else none
  | '\\' :: _, _ => none
  | c :: rest, acc =>
    if c.toNat < 32 then none else parseJsonStringBody rest (c :: acc)

/-- Optional exponent tail of a JSON number. -/
def jsonExponentTail (neg : Bool) (mant fracLen : Nat) (r : List Char) :
    Option (ℚ × List Char) :=
  let (eneg, r1) :=
    match r with
    | '+' :: t => (false, t)
    | '-' :: t => (true, t)
    | t => (false, t)
  let ds := r1.takeWhile isAsciiDigit
  let r2 := r1.dropWhile isAsciiDigit
  if ds.isEmpty then none
  else
    let q := decScaled mant fracLen eneg (digitsToNat ds)
    some (if neg then -q else q, r2)

/-- Assemble a JSON number from its sign, integer and fraction digits, then
parse an optional exponent. -/
def finishJsonNumber (neg : Bool) (ip fp : List Char) (l : List Char) :
    Option (ℚ × List Char) :=
  let mant := digitsToNat (ip ++ fp)
  match l with
  | 'e' :: r => jsonExponentTail neg mant fp.length r
  | 'E' :: r => jsonExponentTail neg mant fp.length r
  | _ =>
    let q := decScaled mant fp.length false 0
    some (if neg then -q else q, l)

/-- JSON number grammar: `-? (0 | [1-9][0-9]*) (. [0-9]+)? ([eE][+-]?[0-9]+)?`. -/
def parseJsonNumber (l : List Char) : Option (ℚ × List Char) :=
  let (neg, l1) :=
    match l with
    | '-' :: r => (true, r)
    | _ => (false, l)
  let ip := l1.takeWhile isAsciiDigit
  let l2 := l1.dropWhile isAsciiDigit
  let intOk :=
    match ip with
    | [] => false
    | ['0'] => true
    | '0' :: _ :: _ => false
    | _ => true
  if !intOk then none
  else
    match l2 with
    | '.' :: r =>
      let fp := r.takeWhile isAsciiDigit
      let l3 := r.dropWhile isAsciiDigit
      if fp.isEmpty then none else finishJsonNumber neg ip fp l3
    | _ => finishJsonNumber neg ip [] l2

mutual

/-- Parse one JSON value after skipping leading whitespace. -/
def parseJsonValue : Nat → List Char → Option (Json × List Char)
  | 0, _ => none
  | Nat.succ fuel, l =>
    match skipJsonWs l with
    | '"' :: r =>
      (parseJsonStringBody r []).map (fun p => (Json.jstr p.1, p.2))
    | '[' :: r =>
      match skipJsonWs r with
      | ']' :: r2 => some (Json.jarr [], r2)
      | _ => (parseJsonElems fuel r).map (fun p => (Json.jarr p.1, p.2))
    | '{' :: r =>
      match skipJsonWs r with
      | '}' :: r2 => some (Json.jobj [], r2)
      | _ => (parseJsonMembers fuel r).map (fun p => (Json.jobj p.1, p.2))
    | 't' :: 'r' :: 'u' :: 'e' :: r => some (Json.jbool true, r)
    | 'f' :: 'a' :: 'l' :: 's' :: 'e' :: r => some (Json.jbool false, r)
    | 'n' :: 'u' :: 'l' :: 'l' :: r => some (Json.jnull, r)
    | l2 => (parseJsonNumber l2).map (fun p => (Json.jnum p.1, p.2))

/-- Parse a non-empty comma-separated list of values, consuming the closing
bracket. -/
def parseJsonElems : Nat → List Char → Option (List Json × List Char)
  | 0, _ => none
  | Nat.succ fuel, l => do
    let (v, r) ← parseJsonValue fuel l
    match skipJsonWs r with
    | ',' :: r2 => do
      let (vs, r3) ← parseJsonElems fuel r2
      pure (v :: vs, r3)
    | ']' :: r2 => pure ([v], r2)
    | _ => none

/-- Parse a non-empty comma-separated list of string-keyed members,
consuming the closing brace. -/
def parseJsonMembers : Nat → List Char → Option (List (String × Json) × List Char)
  | 0, _ => none
  | Nat.succ fuel, l =>
    match skipJsonWs l with
    | '"' :: r => do
      let (k, r1) ← parseJsonStringBody r []
      match skipJsonWs r1 with
      | ':' :: r2 => do
        let (v, r3) ← parseJsonValue fuel r2
        match skipJsonWs r3 with
        | ',' :: r4 => do
          let (ms, r5) ← parseJsonMembers fuel r4
          pure ((k, v) :: ms, r5)
        | '}' :: r4 => pure ([(k, v)], r4)
        | _ => none
      | _ => none
    | _ => none

end

/-- `JSON.parse(s)`: parse one value and require only whitespace after it. -/
def jsonParse (s : String) : Option Json :=
  match parseJsonValue (2 * s.length + 2) s.toList with
  | some (v, rest) => if (skipJsonWs rest).isEmpty then some v else none
  | none => none

/-- `raw.replace(/'/g, double-quote)`: the normalization applied to
`id_artists` before `JSON.parse`. -/
def normalizeQuotes (s : String) : String :=
  (s.toList.map (fun c => if c.toNat = 39 then Char.ofNat 34 else c)).asString

/-! ### CSV records -/

/-- One record decoded from a CSV row: an association list from column name
to raw string value (`csv-parser` produces string-valued objects). -/
abbrev Row := List (String × String)

/-- Property read `record.key`: `none` models `undefined`. -/
def getField : Row → String → Option String
  | [], _ => none
  | (k, v) :: rest, key => if k = key then some v else getField rest key

/-- Property write `record.key = val`: overwrite an existing binding in
place, otherwise append a new one. -/
def setField : Row → String → String → Row
  | [], key, val => [(key, val)]
  | (k, v) :: rest, key, val =>
    if k = key then (k, val) :: rest else (k, v) :: setField rest key val

/-! ### Track filter-transform stage (`FilterTransform._transform`) -/

/-- `config.transform.minDuration` (config.ts line 63). -/
def defaultMinDuration : ℚ := 60000

/-- `Number(track.duration_ms)`; an absent field is `undefined` and
`Number(undefined)` is NaN. -/
def trackDuration (track : Row) : JsNum :=
  match getField track "duration_ms" with
  | none => JsNum.nan
  | some s => jsStringToNumber s

/-- The filter test of transformer.ts lines 89-93: keep the record unless
`!name || isNaN(duration) || duration < minDuration`, where
`name = track.name?.trim()`. -/
def trackKeepFilter (minDuration : ℚ) (track : Row) : Bool :=
  let nameFalsy :=
    match getField track "name" with
    | none => true
    | some n => jsTrim n = ""
  !(nameFalsy || (trackDuration track).isNaN ||
    (trackDuration track).ltQ minDuration)

/-- The value bound to `idArtistsArray` (transformer.ts lines 94-103):
`[]` when `track.id_artists` is falsy; the `JSON.parse` result of the
quote-normalized string when parsing succeeds (whatever shape it has); and
the one-element fallback `[track.id_artists]` when `JSON.parse` throws. -/
def idArtistsValue (track : Row) : Json :=
  match getField track "id_artists" with
  | none => Json.jarr []
  | some raw =>
    if raw = "" then Json.jarr []
    else
      match jsonParse (normalizeQuotes raw) with
      | some v => v
      | none => Json.jarr [Json.jstr raw]

/-- `uniqueArtistIds` is a JS `Set`, modelled as an insertion-ordered list
without duplicates; `Set.add` appends only unseen elements. -/
def setAdd (acc : List String) (s : String) : List String :=
  if acc.contains s then acc else acc ++ [s]

/-- The `forEach` body of transformer.ts lines 104-109 over the elements of
an array.  A string element is trimmed and, if non-empty, added to the
accumulator.  A non-string element makes `id.trim()` throw `TypeError`;
the boolean result records that the loop threw, with all additions made
before the throw retained (the JS `Set` is mutated in place). -/
def forEachAddIds : List Json → List String → List String × Bool
  | [], acc => (acc, false)
  | Json.jstr s :: rest, acc =>
    let trimmed := jsTrim s
    forEachAddIds rest (if trimmed = "" then acc else setAdd acc trimmed)
  | _ :: _, acc => (acc, true)

/-- `idArtistsArray.forEach(...)`: calling `forEach` on a non-array value
throws `TypeError` immediately. -/
def runForEach : Json → List String → List String × Bool
  | Json.jarr l, acc => forEachAddIds l acc
  | _, acc => (acc, true)

/-- Field enrichment of transformer.ts lines 110-114: set `release_year`,
`release_month`, `release_day` from `parseReleaseDate(release_date || "")`
and `danceability_level` from `transformDanceability(danceability)`. -/
def enrichTrack (track : Row) : Row :=
  let rd := parseReleaseDate ((getField track "release_date").getD "")
  setField
    (setField
      (setField (setField track "release_year" rd.year)
        "release_month" rd.month)
      "release_day" rd.day)
    "danceability_level" (transformDanceability (getField track "danceability"))

/-- One `FilterTransform._transform` call on one record: returns the
accumulator after the call and the record pushed downstream, if any.  The
outer try/catch turns a throw escaping the `forEach` into a logged drop
(`callback()` with no data). -/
def filterTransformStep (minDuration : ℚ) (acc : List String) (track : Row) :
    List String × Option Row :=
  if !trackKeepFilter minDuration track then (acc, none)
  else
    let (acc2, threw) := runForEach (idArtistsValue track) acc
    if threw then (acc2, none)
    else (acc2, some (enrichTrack track))

/-- Drain the track stream through `FilterTransform`: fold
`filterTransformStep` over the records in input order, collecting the
emitted records and the final `uniqueArtistIds` accumulator. -/
def runFilterTransform (minDuration : ℚ) :
    List String → List Row → List String × List Row
  | acc, [] => (acc, [])
  | acc, t :: rest =>
    let (acc2, out) := filterTransformStep minDuration acc t
    let (accF, outs) := runFilterTransform minDuration acc2 rest
    (accF,
      match out with
      | some r => r :: outs
      | none => outs)

/-! ### Artist filter stage (`ArtistFilterTransform._transform`) -/

/-- One `ArtistFilterTransform._transform` call: emit the record unchanged
when `allowedArtistIds.has(artist.id)`, otherwise emit nothing.  An absent
`id` reads as `undefined`, and `Set.has(undefined)` is false.  No statement
in the body can throw, so the catch branch is unreachable. -/
def artistFilterStep (allowed : List String) (artist : Row) : Option Row :=
  match getField artist "id" with
  | some i => if allowed.contains i then some artist else none
  | none => none

/-- Drain the artist stream through `ArtistFilterTransform`. -/
def runArtistFilter (allowed : List String) (artists : List Row) : List Row :=
  artists.filterMap (artistFilterStep allowed)

/-! ### Pipeline driver (`runTransformation`, index.ts lines 10-34)

The track pipeline is awaited to completion, then the artist stage is
constructed from the completed `uniqueArtistIds` accumulator. -/

def runTransformation (minDuration : ℚ) (tracks artists : List Row) :
    List Row × List Row :=
  let (acc, trackOut) := runFilterTransform minDuration [] tracks
  (trackOut, runArtistFilter acc artists)

/-! ### Derived per-record predicates -/

/-- Whether processing this record's `id_artists` would throw (a property
of the record alone; the throw does not depend on the accumulator). -/
def trackThrows (track : Row) : Bool :=
  (runForEach (idArtistsValue track) []).2

/-- A record survives the track stage iff it passes the name/duration
filter and its `id_artists` processing does not throw. -/
def keepTrack (minDuration : ℚ) (track : Row) : Bool :=
  trackKeepFilter minDuration track && !trackThrows track

/-- The set of artist IDs a single record contributes to the accumulator
(the trimmed non-empty string elements processed before any throw). -/
def trackContributedIds (track : Row) : List String :=
  (runForEach (idArtistsValue track) []).1

/-! ### Upload with bounded retry (`uploadFileToS3`, uploadToS3.ts)

`s3.upload(...).promise()` either fulfills or rejects; attempt outcomes are
modelled by an oracle `uploadOk : Nat → Bool` giving the result of each
attempt number.  The function's effects relevant to the caller are how many
attempts were made and whether one succeeded; the returned promise never
rejects. -/

structure UploadOutcome where
  attemptsMade : Nat
  succeeded : Bool
deriving DecidableEq, Repr

/-- The retry loop `for (let attempt = 1; attempt <= retries; attempt++)`,
structurally recursive on the number of attempts still permitted: stop at
the first successful attempt; after a failing final attempt the exhaustion
is logged and the loop ends normally. -/
def uploadAttemptLoop (uploadOk : Nat → Bool) (attempt : Nat) :
    Nat → UploadOutcome
  | 0 => ⟨0, false⟩
  | Nat.succ left =>
    if uploadOk attempt then ⟨1, true⟩
    else
      let r := uploadAttemptLoop uploadOk (attempt + 1) left
      ⟨r.attemptsMade + 1, r.succeeded⟩

/-- `uploadFileToS3(filePath, s3Key, retries = 3)`: missing or unreadable
files are logged and reported with no attempt made; otherwise the retry
loop runs.  In every case the function returns normally. -/
def uploadFileToS3 (fileExists readOk : Bool) (uploadOk : Nat → Bool)
    (retries : Nat := 3) : UploadOutcome :=
  if !fileExists then ⟨0, false⟩
  else if !readOk then ⟨0, false⟩
  else uploadAttemptLoop uploadOk 1 retries

/-- `runUploads`: `Promise.all` over the two file uploads.  Since each
upload resolves (never rejects), both results are always produced; each is
independent of the other's outcome. -/
def runUploads (fe1 ro1 : Bool) (ok1 : Nat → Bool) (fe2 ro2 : Bool)
    (ok2 : Nat → Bool) : UploadOutcome × UploadOutcome :=
  (uploadFileToS3 fe1 ro1 ok1, uploadFileToS3 fe2 ro2 ok2)

/-! ### Specification companion for `parseReleaseDate` (C6)

A second parser written from the specification text ("strip non-printable
ASCII and trim; match in order `YYYY-MM-DD` (split on `-`),
`D{1,2}/M{1,2}/YYYY` read as day/month/year, bare `YYYY`; otherwise
all-empty").  Its format matchers are positional / span-based rather than
regex-plus-split, so agreement with `parseReleaseDate` is a real
equivalence of the two formulations. -/

/-- Spec reading of `YYYY-MM-DD`: ten characters, digits at positions
0-3, 5-6 and 8-9, dashes at positions 4 and 7. -/
def specYMD (l : List Char) : Option ReleaseDate :=
  if l.length = 10 ∧ (l.take 4).all isAsciiDigit ∧ l.get? 4 = some '-' ∧
      ((l.drop 5).take 2).all isAsciiDigit ∧ l.get? 7 = some '-' ∧
      ((l.drop 8).take 2).all isAsciiDigit then
    some ⟨(l.take 4).asString, ((l.drop 5).take 2).asString,
      ((l.drop 8).take 2).asString⟩
  else none

/-- Spec reading of `D{1,2}/M{1,2}/YYYY`: a leading run of one or two
digits, a slash, another run of one or two digits, a slash, and exactly
four digits; reassembled as year/month/day. -/
def specDMY (l : List Char) : Option ReleaseDate :=
  match l.dropWhile isAsciiDigit with
  | '/' :: r2 =>
    match r2.dropWhile isAsciiDigit with
    | '/' :: y =>
      if 1 ≤ (l.takeWhile isAsciiDigit).length ∧
          (l.takeWhile isAsciiDigit).length ≤ 2 ∧
          1 ≤ (r2.takeWhile isAsciiDigit).length ∧
          (r2.takeWhile isAsciiDigit).length ≤ 2 ∧
          y.length = 4 ∧ y.all isAsciiDigit then
        some ⟨y.asString, (r2.takeWhile isAsciiDigit).asString,
          (l.takeWhile isAsciiDigit).asString⟩
      else none
    | _ => none
  | _ => none

/-- Spec reading of a bare `YYYY`. -/
def specYYYY (l : List Char) : Option ReleaseDate :=
  if l.length = 4 ∧ l.all isAsciiDigit then some ⟨l.asString, "", ""⟩
  else none

/-- Modelled from the spec: the format matching of §4.1 of the design
document on the cleaned string, as an ordered chain of optional matchers. -/
def parseReleaseDateSpecCore (cleaned : List Char) : ReleaseDate :=
  (((specYMD cleaned).orElse fun _ => specDMY cleaned).orElse
    fun _ => specYYYY cleaned).getD ⟨"", "", ""⟩

/-- Modelled from the spec: release-date parsing as described in §4.1 of
the design document (strip non-printable ASCII, trim, then match the three
formats in order, with day/month/year reassignment for the slash format and
all-empty fallback). -/
def parseReleaseDateSpec (s : String) : ReleaseDate :=
  parseReleaseDateSpecCore (jsTrimList (s.toList.filter isPrintableAscii))

/-- Inverse of `splitOnChar`: interleave the separator between the parts. -/
def joinSep (sep : Char) : List (List Char) → List Char
  | [] => []
  | [p] => p
  | p :: ps => p ++ sep :: joinSep sep ps

/-! ### Concrete claim inputs -/

/-- A track that passes the name/duration filter but whose `id_artists`
decodes to a JSON array containing a non-string element. -/
def c1CounterTrack : Row :=
  [("name", "A"), ("duration_ms", "70000"), ("id_artists", "[1]")]

def c1ExactTrack : Row := [("name", "Exact"), ("duration_ms", "60000")]

def c1ShortTrack : Row := [("name", "Short"), ("duration_ms", "59999")]

/-- `id_artists` decodes to `["x1", 2]`: the loop adds `x1` to the
accumulator and then throws on the element `2`, dropping the track. -/
def c2CounterTrack : Row :=
  [("name", "A"), ("duration_ms", "70000"), ("id_artists", "[\x27x1\x27,2]")]

def c2CounterArtist : Row := [("id", "x1")]

def c2WitnessTrack : Row :=
  [("name", "A"), ("duration_ms", "70000"), ("id_artists", "[\x27x1\x27]")]

def c2WitnessArtist : Row := [("id", "x1")]

/-- `id_artists` is an unterminated array literal, so `JSON.parse` throws
and the fallback one-element list is used. -/
def c4WitnessTrack : Row :=
  [("name", "A"), ("duration_ms", "70000"), ("id_artists", "[\x27a1\x27")]

/-- `id_artists` decodes to `[null]`, so `id.trim()` throws. -/
def c5WitnessTrack : Row :=
  [("name", "D"), ("duration_ms", "61000"), ("id_artists", "[null]")]

def c5WitnessRest : Row := [("name", "E"), ("duration_ms", "62000")]

def c8WitnessTrack : Row :=
  [("name", "A"), ("duration_ms", "70000"), ("custom_col", "v"),
   ("id_artists", "[\x27x\x27]"), ("release_date", "1929-01-12"),
   ("danceability", "0.82")]

def c8WitnessArtist : Row := [("id", "x"), ("followers", "7")]

def c10WitnessTrack : Row :=
  [("name", "A"), ("duration_ms", "70000"), ("id_artists", "[\x27x1\x27]")]

/-- An artist whose `id` differs from the accumulated `x1` only by
surrounding whitespace. -/
def c10WitnessArtist : Row := [("id", " x1 ")]

/-! ### Basic lemmas about trimming and the accumulator -/

theorem dropWhile_dropWhile (p : Char → Bool) (l : List Char) :
    (l.dropWhile p).dropWhile p = l.dropWhile p := by
  induction l with
  | nil => rfl
  | cons a t ih =>
    by_cases h : p a
    · simp [List.dropWhile_cons, h, ih]
    · simp [List.dropWhile_cons, h]

theorem dropWhile_eq_self_of_prefix (p : Char → Bool) (l u : List Char)
    (hl : l.dropWhile p = l) (hu : u <+: l) : u.dropWhile p = u := by
  cases u with
  | nil => rfl
  | cons a t =>
    obtain ⟨s, hs⟩ := hu
    have hs' : a :: (t ++ s) = l := by simpa using hs
    have ha : p a = false := by
      cases hpa : p a
      · rfl
      · exfalso
        have heq : l.dropWhile p = (t ++ s).dropWhile p := by
          rw [← hs', List.dropWhile_cons, hpa]
          simp
        have h2 := (List.dropWhile_suffix p (l := t ++ s)).length_le
        rw [← heq, hl, ← hs'] at h2
        simp at h2
    rw [List.dropWhile_cons, ha]
    simp

theorem jsTrimList_idem (l : List Char) :
    jsTrimList (jsTrimList l) = jsTrimList l := by
  unfold jsTrimList
  set m := l.dropWhile isJsWhitespace with hm
  have hmm : m.dropWhile isJsWhitespace = m := dropWhile_dropWhile _ _
  set r := (m.reverse.dropWhile isJsWhitespace).reverse with hr
  have hpref : r <+: m := by
    have hsfx : m.reverse.dropWhile isJsWhitespace <:+ m.reverse :=
      List.dropWhile_suffix _
    have := List.reverse_prefix.mpr hsfx
    simpa [hr] using this
  have h1 : r.dropWhile isJsWhitespace = r :=
    dropWhile_eq_self_of_prefix _ m r hmm hpref
  have h2 : r.reverse.dropWhile isJsWhitespace = r.reverse := by
    rw [hr]
    simp only [List.reverse_reverse]
    exact dropWhile_dropWhile _ _
  rw [h1, h2, List.reverse_reverse]

theorem toList_asString (l : List Char) : (l.asString).toList = l := rfl

theorem jsTrim_idem (s : String) : jsTrim (jsTrim s) = jsTrim s := by
  unfold jsTrim
  rw [toList_asString, jsTrimList_idem]

theorem contains_iff_mem (l : List String) (s : String) :
    l.contains s = true ↔ s ∈ l := by
  simp [List.contains]

theorem setAdd_mem (acc : List String) (s x : String) :
    x ∈ setAdd acc s ↔ x ∈ acc ∨ x = s := by
  unfold setAdd
  by_cases h : acc.contains s = true
  · rw [if_pos h]
    rw [contains_iff_mem] at h
    constructor
    · exact fun hx => Or.inl hx
    · rintro (hx | rfl)
      · exact hx
      · exact h
  · rw [if_neg h]
    simp

theorem setAdd_trim_inv (acc : List String) (s : String)
    (hacc : ∀ x ∈ acc, jsTrim x = x) (hs : jsTrim s = s) :
    ∀ x ∈ setAdd acc s, jsTrim x = x := by
  intro x hx
  rcases (setAdd_mem acc s x).mp hx with h | rfl
  · exact hacc x h
  · exact hs

theorem forEachAddIds_trim_inv (l : List Json) :
    ∀ acc : List String, (∀ x ∈ acc, jsTrim x = x) →
      ∀ x ∈ (forEachAddIds l acc).1, jsTrim x = x := by
  induction l with
  | nil => intro acc hacc; exact hacc
  | cons j rest ih =>
    intro acc hacc
    cases j with
    | jstr s =>
      simp only [forEachAddIds]
      by_cases h : jsTrim s = ""
      · rw [if_pos h]
        exact ih acc hacc
      · rw [if_neg h]
        exact ih _ (setAdd_trim_inv acc (jsTrim s) hacc (jsTrim_idem s))
    | jnull => exact fun x hx => hacc x hx
    | jbool b => exact fun x hx => hacc x hx
    | jnum q => exact fun x hx => hacc x hx
    | jarr es => exact fun x hx => hacc x hx
    | jobj ms => exact fun x hx => hacc x hx

theorem runForEach_trim_inv (v : Json) (acc : List String)
    (hacc : ∀ x ∈ acc, jsTrim x = x) :
    ∀ x ∈ (runForEach v acc).1, jsTrim x = x := by
  cases v with
  | jarr l => exact forEachAddIds_trim_inv l acc hacc
  | jnull => exact hacc
  | jbool b => exact hacc
  | jnum q => exact hacc
  | jstr s => exact hacc
  | jobj ms => exact hacc

theorem filterTransformStep_trim_inv (m : ℚ) (acc : List String) (t : Row)
    (hacc : ∀ x ∈ acc, jsTrim x = x) :
    ∀ x ∈ (filterTransformStep m acc t).1, jsTrim x = x := by
  unfold filterTransformStep
  by_cases hk : trackKeepFilter m t
  · rcases hr : runForEach (idArtistsValue t) acc with ⟨acc2, threw⟩
    have h2 : ∀ x ∈ acc2, jsTrim x = x := by
      have := runForEach_trim_inv (idArtistsValue t) acc hacc
      rw [hr] at this
      exact this
    simp only [hk, hr]
    cases threw <;> simpa using h2
  · simp only [Bool.not_eq_true] at hk
    simp [hk]
    exact hacc

theorem runFilterTransform_trim_inv (m : ℚ) (ts : List Row) :
    ∀ acc : List String, (∀ x ∈ acc, jsTrim x = x) →
      ∀ x ∈ (runFilterTransform m acc ts).1, jsTrim x = x := by
  induction ts with
  | nil => intro acc hacc; exact hacc
  | cons t rest ih =>
    intro acc hacc
    simp only [runFilterTransform]
    rcases hs : filterTransformStep m acc t with ⟨acc2, out⟩
    have h2 : ∀ x ∈ acc2, jsTrim x = x := by
      have := filterTransformStep_trim_inv m acc t hacc
      rw [hs] at this
      exact this
    rcases hrun : runFilterTransform m acc2 rest with ⟨accF, outs⟩
    have := ih acc2 h2
    rw [hrun] at this
    simpa using this

/-! ### The throw flag and contributed IDs depend only on the record -/

theorem forEachAddIds_snd_indep (l : List Json) :
    ∀ acc acc2 : List String,
      (forEachAddIds l acc).2 = (forEachAddIds l acc2).2 := by
  induction l with
  | nil => intro acc acc2; rfl
  | cons j rest ih =>
    intro acc acc2
    cases j with
    | jstr s => simp only [forEachAddIds]; exact ih _ _
    | jnull => rfl
    | jbool b => rfl
    | jnum q => rfl
    | jarr es => rfl
    | jobj ms => rfl

theorem runForEach_snd_indep (v : Json) (acc : List String) :
    (runForEach v acc).2 = (runForEach v []).2 := by
  cases v with
  | jarr l => exact forEachAddIds_snd_indep l acc []
  | jnull => rfl
  | jbool b => rfl
  | jnum q => rfl
  | jstr s => rfl
  | jobj ms => rfl

theorem forEachAddIds_mem (l : List Json) :
    ∀ (acc : List String) (x : String),
      x ∈ (forEachAddIds l acc).1 ↔ x ∈ acc ∨ x ∈ (forEachAddIds l []).1 := by
  induction l with
  | nil => intro acc x; simp [forEachAddIds]
  | cons j rest ih =>
    intro acc x
    cases j with
    | jstr s =>
      simp only [forEachAddIds]
      by_cases h : jsTrim s = ""
      · rw [if_pos h, if_pos h, ih acc x]
      · rw [if_neg h, if_neg h, ih (setAdd acc (jsTrim s)) x,
          ih (setAdd [] (jsTrim s)) x, setAdd_mem, setAdd_mem]
        simp
        tauto
    | jnull => simp [forEachAddIds]
    | jbool b => simp [forEachAddIds]
    | jnum q => simp [forEachAddIds]
    | jarr es => simp [forEachAddIds]
    | jobj ms => simp [forEachAddIds]

theorem runForEach_mem (v : Json) (acc : List String) (x : String) :
    x ∈ (runForEach v acc).1 ↔ x ∈ acc ∨ x ∈ (runForEach v []).1 := by
  cases v with
  | jarr l => exact forEachAddIds_mem l acc x
  | jnull => simp [runForEach]
  | jbool b => simp [runForEach]
  | jnum q => simp [runForEach]
  | jstr s => simp [runForEach]
  | jobj ms => simp [runForEach]

/-! ### Characterizing the output and accumulator of one step and a run -/

theorem filterTransformStep_snd (m : ℚ) (acc : List String) (t : Row) :
    (filterTransformStep m acc t).2 =
      if keepTrack m t then some (enrichTrack t) else none := by
  unfold filterTransformStep keepTrack
  by_cases hk : trackKeepFilter m t
  · rcases hr : runForEach (idArtistsValue t) acc with ⟨acc2, threw⟩
    have hthrew : threw = trackThrows t := by
      unfold trackThrows
      rw [← runForEach_snd_indep (idArtistsValue t) acc, hr]
    simp only [hk, hr, hthrew]
    cases htt : trackThrows t <;> simp
  · simp only [Bool.not_eq_true] at hk
    simp [hk]

theorem filterTransformStep_fst (m : ℚ) (acc : List String) (t : Row) :
    (filterTransformStep m acc t).1 =
      if trackKeepFilter m t then (runForEach (idArtistsValue t) acc).1
      else acc := by
  unfold filterTransformStep
  by_cases hk : trackKeepFilter m t
  · rcases hr : runForEach (idArtistsValue t) acc with ⟨acc2, threw⟩
    simp only [hk, hr]
    cases threw <;> simp
  · simp only [Bool.not_eq_true] at hk
    simp [hk]

theorem runFilterTransform_cons (m : ℚ) (acc : List String) (t : Row)
    (rest : List Row) :
    runFilterTransform m acc (t :: rest) =
      ((runFilterTransform m (filterTransformStep m acc t).1 rest).1,
        match (filterTransformStep m acc t).2 with
        | some r => r :: (runFilterTransform m (filterTransformStep m acc t).1 rest).2
        | none => (runFilterTransform m (filterTransformStep m acc t).1 rest).2) := by
  simp only [runFilterTransform]

theorem runFilterTransform_snd (m : ℚ) (ts : List Row) :
    ∀ acc : List String,
      (runFilterTransform m acc ts).2 =
        (ts.filter (keepTrack m)).map enrichTrack := by
  induction ts with
  | nil => intro acc; rfl
  | cons t rest ih =>
    intro acc
    rw [runFilterTransform_cons, filterTransformStep_snd]
    by_cases hk : keepTrack m t
    · simp [hk, List.filter_cons, ih]
    · simp only [Bool.not_eq_true] at hk
      simp [hk, List.filter_cons, ih]

theorem runFilterTransform_acc_mem (m : ℚ) (ts : List Row) :
    ∀ (acc : List String) (x : String),
      x ∈ (runFilterTransform m acc ts).1 ↔
        x ∈ acc ∨ ∃ t, t ∈ ts ∧ trackKeepFilter m t = true ∧
          x ∈ trackContributedIds t := by
  induction ts with
  | nil => intro acc x; simp [runFilterTransform]
  | cons t rest ih =>
    intro acc x
    rw [runFilterTransform_cons]
    simp only []
    rw [ih (filterTransformStep m acc t).1 x, filterTransformStep_fst]
    by_cases hk : trackKeepFilter m t
    · rw [if_pos hk, runForEach_mem]
      unfold trackContributedIds
      constructor
      · rintro ((hx | hx) | ⟨t2, ht2, hk2, hx⟩)
        · exact Or.inl hx
        · exact Or.inr ⟨t, List.mem_cons_self t rest, hk, hx⟩
        · exact Or.inr ⟨t2, List.mem_cons_of_mem t ht2, hk2, hx⟩
      · rintro (hx | ⟨t2, ht2, hk2, hx⟩)
        · exact Or.inl (Or.inl hx)
        · rcases List.mem_cons.mp ht2 with rfl | ht2'
          · exact Or.inl (Or.inr hx)
          · exact Or.inr ⟨t2, ht2', hk2, hx⟩
    · have hk' : trackKeepFilter m t = false := by
        cases h : trackKeepFilter m t
        · rfl
        · exact absurd h hk
      rw [if_neg hk]
      constructor
      · rintro (hx | ⟨t2, ht2, hk2, hx⟩)
        · exact Or.inl hx
        · exact Or.inr ⟨t2, List.mem_cons_of_mem t ht2, hk2, hx⟩
      · rintro (hx | ⟨t2, ht2, hk2, hx⟩)
        · exact Or.inl hx
        · rcases List.mem_cons.mp ht2 with rfl | ht2'
          · rw [hk'] at hk2; exact absurd hk2 (by simp)
          · exact Or.inr ⟨t2, ht2', hk2, hx⟩

/-! ### Artist stage lemmas -/

theorem artistFilterStep_eq_some (allowed : List String) (a b : Row)
    (h : artistFilterStep allowed a = some b) : b = a := by
  cases hid : getField a "id" with
  | none => simp [artistFilterStep, hid] at h
  | some i =>
    by_cases hm : i ∈ allowed
    · simp [artistFilterStep, hid, hm] at h
      exact h.symm
    · simp [artistFilterStep, hid, hm] at h

theorem artistFilterStep_some_iff (allowed : List String) (a : Row)
    (i : String) (hid : getField a "id" = some i) :
    artistFilterStep allowed a = some a ↔ i ∈ allowed := by
  by_cases hm : i ∈ allowed
  · simp [artistFilterStep, hid, hm]
  · simp [artistFilterStep, hid, hm]

theorem artistFilterStep_none_of_not_mem (allowed : List String) (a : Row)
    (i : String) (hid : getField a "id" = some i) (hm : i ∉ allowed) :
    artistFilterStep allowed a = none := by
  simp [artistFilterStep, hid, hm]

theorem runArtistFilter_eq_filter (allowed : List String)
    (artists : List Row) :
    runArtistFilter allowed artists =
      artists.filter (fun a => (artistFilterStep allowed a).isSome) := by
  unfold runArtistFilter
  induction artists with
  | nil => rfl
  | cons a rest ih =>
    cases h : artistFilterStep allowed a with
    | none => simp [List.filterMap_cons, List.filter_cons, h, ih]
    | some b =>
      have hb : b = a := artistFilterStep_eq_some allowed a b h
      subst hb
      simp [List.filterMap_cons, List.filter_cons, h, ih]

theorem runArtistFilter_mem (allowed : List String) (artists : List Row)
    (a : Row) :
    a ∈ runArtistFilter allowed artists ↔
      a ∈ artists ∧ ∃ i, getField a "id" = some i ∧ i ∈ allowed := by
  unfold runArtistFilter
  rw [List.mem_filterMap]
  constructor
  · rintro ⟨x, hx, hstep⟩
    have hxa : a = x := artistFilterStep_eq_some allowed x a hstep
    subst hxa
    refine ⟨hx, ?_⟩
    cases hid : getField a "id" with
    | none => simp [artistFilterStep, hid] at hstep
    | some i =>
      by_cases hm : i ∈ allowed
      · exact ⟨i, rfl, hm⟩
      · simp [artistFilterStep, hid, hm] at hstep
  · rintro ⟨ha, i, hid, hm⟩
    exact ⟨a, ha, by simp [artistFilterStep, hid, hm]⟩

/-! ### Record field lemmas -/

theorem getField_setField_same (r : Row) (k v : String) :
    getField (setField r k v) k = some v := by
  induction r with
  | nil => simp [setField, getField]
  | cons p rest ih =>
    rcases p with ⟨k1, v1⟩
    by_cases h : k1 = k
    · simp [setField, getField, h]
    · simp [setField, getField, h, ih]

theorem getField_setField_ne (r : Row) (k v key : String) (h : key ≠ k) :
    getField (setField r k v) key = getField r key := by
  induction r with
  | nil =>
    simp only [setField, getField]
    rw [if_neg (Ne.symm h)]
  | cons p rest ih =>
    rcases p with ⟨k1, v1⟩
    by_cases h1 : k1 = k
    · subst h1
      simp only [setField, getField, if_pos rfl]
      rw [if_neg (Ne.symm h), if_neg (Ne.symm h)]
    · simp only [setField, getField, if_neg h1]
      by_cases h2 : k1 = key
      · simp only [getField, if_pos h2]
      · simp only [getField, if_neg h2]
        exact ih

/-! ### The keep condition in the claim's terms -/

theorem keepTrack_iff (m : ℚ) (t : Row) :
    keepTrack m t = true ↔
      ((∃ n, getField t "name" = some n ∧ jsTrim n ≠ "") ∧
        (trackDuration t).isNaN = false ∧
        (trackDuration t).geQ m = true ∧
        trackThrows t = false) := by
  unfold keepTrack trackKeepFilter
  cases hname : getField t "name" with
  | none =>
    simp [hname]
  | some n =>
    by_cases hn : jsTrim n = ""
    · simp [hname, hn]
    · cases hd : trackDuration t with
      | nan => simp [hname, hn, JsNum.isNaN, JsNum.ltQ, JsNum.geQ]
      | posInf =>
        cases ht : trackThrows t <;>
          simp [hname, hn, JsNum.isNaN, JsNum.ltQ, JsNum.geQ, ht]
      | negInf =>
        simp [hname, hn, JsNum.isNaN, JsNum.ltQ, JsNum.geQ]
      | fin x =>
        cases ht : trackThrows t <;>
          by_cases hx : x < m <;>
            simp [hname, hn, JsNum.isNaN, JsNum.ltQ, JsNum.geQ, ht, hx,
              not_lt, le_of_not_lt, not_le_of_lt]

/-! ### Upload retry-loop lemmas -/

theorem uploadAttemptLoop_attempts_le (ok : Nat → Bool) (left : Nat) :
    ∀ attempt, (uploadAttemptLoop ok attempt left).attemptsMade ≤ left := by
  induction left with
  | zero => intro attempt; simp [uploadAttemptLoop]
  | succ n ih =>
    intro attempt
    by_cases h : ok attempt = true
    · simp [uploadAttemptLoop, h]
    · simp only [uploadAttemptLoop, h]
      simp only [Bool.false_eq_true, if_false]
      have := ih (attempt + 1)
      omega

theorem uploadAttemptLoop_first_success (ok : Nat → Bool) (left : Nat) :
    ∀ attempt k, attempt ≤ k → k < attempt + left → ok k = true →
      (∀ j, attempt ≤ j → j < k → ok j = false) →
      uploadAttemptLoop ok attempt left = ⟨k - attempt + 1, true⟩ := by
  induction left with
  | zero => intro attempt k h1 h2 _ _; omega
  | succ n ih =>
    intro attempt k h1 h2 hk hprev
    by_cases h : ok attempt = true
    · have hka : k = attempt := by
        by_contra hne
        have : attempt < k := by omega
        have := hprev attempt (le_refl attempt) this
        rw [h] at this
        exact Bool.true_eq_false.mp this
      subst hka
      simp [uploadAttemptLoop, h]
    · have hak : attempt < k := by
        rcases Nat.lt_or_ge attempt k with hlt | hge
        · exact hlt
        · have : k = attempt := by omega
          subst this
          exact absurd hk h
      have hrec := ih (attempt + 1) k (by omega) (by omega) hk
        (fun j hj1 hj2 => hprev j (by omega) hj2)
      simp only [uploadAttemptLoop, h]
      simp only [Bool.false_eq_true, if_false, hrec]
      have heq : k - (attempt + 1) + 1 + 1 = k - attempt + 1 := by omega
      simpa using heq

theorem uploadAttemptLoop_all_fail (ok : Nat → Bool) (left : Nat) :
    ∀ attempt, (∀ j, attempt ≤ j → j < attempt + left → ok j = false) →
      uploadAttemptLoop ok attempt left = ⟨left, false⟩ := by
  induction left with
  | zero => intro attempt _; rfl
  | succ n ih =>
    intro attempt hfail
    have h : ok attempt = false := hfail attempt (le_refl attempt) (by omega)
    simp only [uploadAttemptLoop, h]
    simp only [Bool.false_eq_true, if_false]
    rw [ih (attempt + 1) (fun j hj1 hj2 => hfail j (by omega) (by omega))]

/-! ### Splitting lemmas for the release-date formats -/

theorem splitOnChar_ne_nil (sep : Char) (l : List Char) :
    splitOnChar sep l ≠ [] := by
  cases l with
  | nil => simp [splitOnChar]
  | cons c rest =>
    simp only [splitOnChar]
    by_cases h : c = sep
    · simp [h]
    · simp only [if_neg h]
      cases hr : splitOnChar sep rest with
      | nil => simp
      | cons p ps => simp

theorem joinSep_splitOnChar (sep : Char) (l : List Char) :
    joinSep sep (splitOnChar sep l) = l := by
  induction l with
  | nil => rfl
  | cons c rest ih =>
    simp only [splitOnChar]
    by_cases h : c = sep
    · rw [if_pos h]
      cases hr : splitOnChar sep rest with
      | nil => exact absurd hr (splitOnChar_ne_nil sep rest)
      | cons p ps =>
        rw [hr] at ih
        simp [joinSep, ih, h]
    · rw [if_neg h]
      cases hr : splitOnChar sep rest with
      | nil => exact absurd hr (splitOnChar_ne_nil sep rest)
      | cons p ps =>
        rw [hr] at ih
        cases ps with
        | nil => simp [joinSep] at ih ⊢; exact ih
        | cons q qs =>
          simp only [joinSep] at ih ⊢
          simp [← ih]

theorem splitOnChar_of_not_mem (sep : Char) (l : List Char)
    (h : sep ∉ l) : splitOnChar sep l = [l] := by
  induction l with
  | nil => rfl
  | cons c rest ih =>
    have hc : ¬(c = sep) := fun e => h (e ▸ List.mem_cons_self c rest)
    have hrest : sep ∉ rest := fun e => h (List.mem_cons_of_mem c e)
    simp only [splitOnChar, if_neg hc, ih hrest]

theorem splitOnChar_append_sep (sep : Char) (y rest : List Char)
    (h : sep ∉ y) :
    splitOnChar sep (y ++ sep :: rest) = y :: splitOnChar sep rest := by
  induction y with
  | nil => simp [splitOnChar]
  | cons c t ih =>
    have hc : ¬(c = sep) := fun e => h (e ▸ List.mem_cons_self c t)
    have ht : sep ∉ t := fun e => h (List.mem_cons_of_mem c e)
    simp only [List.cons_append, splitOnChar, if_neg hc, List.append_eq, ih ht]

theorem takeWhile_append_not (p : Char → Bool) (d : List Char) (c : Char)
    (rest : List Char) (hd : d.all p = true) (hc : p c = false) :
    (d ++ c :: rest).takeWhile p = d := by
  induction d with
  | nil => simp [List.takeWhile_cons, hc]
  | cons a t ih =>
    simp only [List.all_cons, Bool.and_eq_true] at hd
    simp [List.takeWhile_cons, hd.1, ih hd.2]

theorem dropWhile_append_not (p : Char → Bool) (d : List Char) (c : Char)
    (rest : List Char) (hd : d.all p = true) (hc : p c = false) :
    (d ++ c :: rest).dropWhile p = c :: rest := by
  induction d with
  | nil => simp [List.dropWhile_cons, hc]
  | cons a t ih =>
    simp only [List.all_cons, Bool.and_eq_true] at hd
    simp [List.dropWhile_cons, hd.1, ih hd.2]

theorem digit_ne_low (c d : Char) (hc : isAsciiDigit c = true)
    (hd : d.toNat < 48) : c ≠ d := by
  intro e
  subst e
  unfold isAsciiDigit at hc
  simp only [Bool.and_eq_true, decide_eq_true_eq] at hc
  omega

theorem not_digit_of_low (d : Char) (hd : d.toNat < 48) :
    isAsciiDigit d = false := by
  unfold isAsciiDigit
  have h : ¬(48 ≤ d.toNat) := by omega
  simp [h]

theorem length_succ_destruct (l : List Char) (n : Nat)
    (h : l.length = n + 1) : ∃ a t, l = a :: t ∧ t.length = n := by
  cases l with
  | nil => simp at h
  | cons a t => exact ⟨a, t, rfl, by simpa using h⟩

theorem low_not_mem_digits (s : Char) (l : List Char)
    (hl : l.all isAsciiDigit = true) (hs : s.toNat < 48) : s ∉ l := by
  intro hmem
  have hd := List.all_eq_true.mp hl s hmem
  rw [not_digit_of_low s hs] at hd
  exact Bool.false_ne_true hd

theorem matchesYMD_shape (l : List Char) (hm : matchesYMD l = true) :
    ∃ a b c d e f g h,
      l = [a, b, c, d, '-', e, f, '-', g, h] ∧
      isAsciiDigit a = true ∧ isAsciiDigit b = true ∧ isAsciiDigit c = true ∧
      isAsciiDigit d = true ∧ isAsciiDigit e = true ∧ isAsciiDigit f = true ∧
      isAsciiDigit g = true ∧ isAsciiDigit h = true := by
  unfold matchesYMD at hm
  split at hm
  next a b c d e f g h i j =>
    simp only [Bool.and_eq_true, decide_eq_true_eq] at hm
    obtain ⟨⟨⟨⟨⟨⟨⟨⟨⟨ha, hb⟩, hc⟩, hd⟩, he⟩, hf⟩, hg⟩, hh⟩, hi⟩, hj⟩ := hm
    subst he
    subst hh
    exact ⟨a, b, c, d, f, g, i, j, rfl, ha, hb, hc, hd, hf, hg, hi, hj⟩
  next =>
    exact absurd hm Bool.false_ne_true

theorem splitOnChar_ymd (a b c d e f g h : Char)
    (ha : isAsciiDigit a = true) (hb : isAsciiDigit b = true)
    (hc : isAsciiDigit c = true) (hd : isAsciiDigit d = true)
    (he : isAsciiDigit e = true) (hf : isAsciiDigit f = true)
    (hg : isAsciiDigit g = true) (hh : isAsciiDigit h = true) :
    splitOnChar '-' [a, b, c, d, '-', e, f, '-', g, h] =
      [[a, b, c, d], [e, f], [g, h]] := by
  have hdash : ('-' : Char).toNat < 48 := by decide
  have n1 : ('-' : Char) ∉ [a, b, c, d] :=
    low_not_mem_digits '-' [a, b, c, d] (by simp [ha, hb, hc, hd]) hdash
  have n2 : ('-' : Char) ∉ [e, f] :=
    low_not_mem_digits '-' [e, f] (by simp [he, hf]) hdash
  have n3 : ('-' : Char) ∉ [g, h] :=
    low_not_mem_digits '-' [g, h] (by simp [hg, hh]) hdash
  have hshape : [a, b, c, d, '-', e, f, '-', g, h] =
      [a, b, c, d] ++ '-' :: ([e, f] ++ '-' :: [g, h]) := rfl
  rw [hshape, splitOnChar_append_sep '-' _ _ n1,
    splitOnChar_append_sep '-' _ _ n2, splitOnChar_of_not_mem '-' _ n3]

theorem specYMD_shape (a b c d e f g h : Char)
    (ha : isAsciiDigit a = true) (hb : isAsciiDigit b = true)
    (hc : isAsciiDigit c = true) (hd : isAsciiDigit d = true)
    (he : isAsciiDigit e = true) (hf : isAsciiDigit f = true)
    (hg : isAsciiDigit g = true) (hh : isAsciiDigit h = true) :
    specYMD [a, b, c, d, '-', e, f, '-', g, h] =
      some ⟨[a, b, c, d].asString, [e, f].asString, [g, h].asString⟩ := by
  simp [specYMD, ha, hb, hc, hd, he, hf, hg, hh]

theorem matchesYMD_of_specYMD (l : List Char) (r : ReleaseDate)
    (h : specYMD l = some r) : matchesYMD l = true := by
  unfold specYMD at h
  split at h
  case isTrue hcond =>
    obtain ⟨hlen, h1, h2, h3, h4, h5⟩ := hcond
    obtain ⟨a, l1, rfl, hl1⟩ := length_succ_destruct l 9 hlen
    obtain ⟨b, l2, rfl, hl2⟩ := length_succ_destruct l1 8 hl1
    obtain ⟨c, l3, rfl, hl3⟩ := length_succ_destruct l2 7 hl2
    obtain ⟨d, l4, rfl, hl4⟩ := length_succ_destruct l3 6 hl3
    obtain ⟨e, l5, rfl, hl5⟩ := length_succ_destruct l4 5 hl4
    obtain ⟨f, l6, rfl, hl6⟩ := length_succ_destruct l5 4 hl5
    obtain ⟨g, l7, rfl, hl7⟩ := length_succ_destruct l6 3 hl6
    obtain ⟨h8, l8, rfl, hl8⟩ := length_succ_destruct l7 2 hl7
    obtain ⟨i, l9, rfl, hl9⟩ := length_succ_destruct l8 1 hl8
    obtain ⟨j, l10, rfl, hl10⟩ := length_succ_destruct l9 0 hl9
    have : l10 = [] := List.length_eq_zero.mp hl10
    subst this
    simp only [List.take, List.drop, List.all_cons, List.all_nil,
      Bool.and_eq_true, List.get?] at h1 h3 h5
    simp only [List.get?] at h2 h4
    have he' : e = '-' := by simpa using h2
    have hh' : h8 = '-' := by simpa using h4
    subst he'
    subst hh'
    simp [matchesYMD, h1.1, h1.2.1, h1.2.2.1, h1.2.2.2.1, h3.1, h3.2.1,
      h5.1, h5.2.1]
  case isFalse =>
    exact absurd h (by simp)

theorem digitsLen_all (lo hi : Nat) (l : List Char)
    (h : digitsLen lo hi l = true) :
    lo ≤ l.length ∧ l.length ≤ hi ∧ l.all isAsciiDigit = true := by
  unfold digitsLen at h
  simp only [Bool.and_eq_true, decide_eq_true_eq] at h
  exact ⟨h.1.1, h.1.2, h.2⟩

theorem digitsLen_intro (lo hi : Nat) (l : List Char)
    (h1 : lo ≤ l.length) (h2 : l.length ≤ hi)
    (h3 : l.all isAsciiDigit = true) : digitsLen lo hi l = true := by
  unfold digitsLen
  simp [h1, h2, h3]

theorem matchesDMY_shape (l : List Char) (hm : matchesDMY l = true) :
    ∃ d m y, splitOnChar '/' l = [d, m, y] ∧ digitsLen 1 2 d = true ∧
      digitsLen 1 2 m = true ∧ digitsLen 4 4 y = true := by
  unfold matchesDMY at hm
  split at hm
  next d m y heq =>
    simp only [Bool.and_eq_true] at hm
    exact ⟨d, m, y, heq, hm.1.1, hm.1.2, hm.2⟩
  next =>
    exact absurd hm Bool.false_ne_true

theorem specDMY_shape (d m y : List Char)
    (hd : digitsLen 1 2 d = true) (hm : digitsLen 1 2 m = true)
    (hy : digitsLen 4 4 y = true) :
    specDMY (d ++ '/' :: (m ++ '/' :: y)) =
      some ⟨y.asString, m.asString, d.asString⟩ := by
  have hslash : isAsciiDigit '/' = false := by decide
  obtain ⟨hd1, hd2, hd3⟩ := digitsLen_all 1 2 d hd
  obtain ⟨hm1, hm2, hm3⟩ := digitsLen_all 1 2 m hm
  obtain ⟨hy1, hy2, hy3⟩ := digitsLen_all 4 4 y hy
  unfold specDMY
  rw [takeWhile_append_not isAsciiDigit d '/' _ hd3 hslash,
    dropWhile_append_not isAsciiDigit d '/' _ hd3 hslash]
  simp only [takeWhile_append_not isAsciiDigit m '/' _ hm3 hslash,
    dropWhile_append_not isAsciiDigit m '/' _ hm3 hslash]
  rw [if_pos]
  exact ⟨hd1, hd2, hm1, hm2, by omega, hy3⟩

theorem matchesDMY_of_specDMY (l : List Char) (r : ReleaseDate)
    (h : specDMY l = some r) : matchesDMY l = true := by
  have hsn : ('/' : Char).toNat < 48 := by decide
  unfold specDMY at h
  split at h
  next r2 heq1 =>
    split at h
    next y heq2 =>
      split at h
      case isTrue hcond =>
        obtain ⟨h1, h2, h3, h4, h5, h6⟩ := hcond
        have hd3 : (l.takeWhile isAsciiDigit).all isAsciiDigit = true :=
          List.all_takeWhile
        have hm3 : (r2.takeWhile isAsciiDigit).all isAsciiDigit = true :=
          List.all_takeWhile
        have hld : l = l.takeWhile isAsciiDigit ++ '/' :: r2 := by
          conv_lhs => rw [← List.takeWhile_append_dropWhile isAsciiDigit l]
          rw [heq1]
        have hr2 : r2 = r2.takeWhile isAsciiDigit ++ '/' :: y := by
          conv_lhs => rw [← List.takeWhile_append_dropWhile isAsciiDigit r2]
          rw [heq2]
        have hsplit : splitOnChar '/' l =
            [l.takeWhile isAsciiDigit, r2.takeWhile isAsciiDigit, y] := by
          conv_lhs => rw [hld, hr2]
          rw [splitOnChar_append_sep '/' _ _
              (low_not_mem_digits '/' _ hd3 hsn),
            splitOnChar_append_sep '/' _ _
              (low_not_mem_digits '/' _ hm3 hsn),
            splitOnChar_of_not_mem '/' _ (low_not_mem_digits '/' y h6 hsn)]
        unfold matchesDMY
        rw [hsplit]
        simp [digitsLen_intro 1 2 _ h1 h2 hd3,
          digitsLen_intro 1 2 _ h3 h4 hm3,
          digitsLen_intro 4 4 y (by omega) (by omega) h6]
      case isFalse => exact absurd h (by simp)
    next => exact absurd h (by simp)
  next => exact absurd h (by simp)

theorem parseReleaseDateCore_eq_specCore (l : List Char) :
    parseReleaseDateCore l = parseReleaseDateSpecCore l := by
  by_cases hymd : matchesYMD l = true
  · obtain ⟨a, b, c, d, e, f, g, h, rfl, ha, hb, hc, hd2, he, hf, hg, hh⟩ :=
      matchesYMD_shape l hymd
    unfold parseReleaseDateCore parseReleaseDateSpecCore
    rw [if_pos hymd, splitOnChar_ymd a b c d e f g h ha hb hc hd2 he hf hg hh,
      specYMD_shape a b c d e f g h ha hb hc hd2 he hf hg hh]
    rfl
  · have hspecY : specYMD l = none := by
      cases hs : specYMD l with
      | none => rfl
      | some r => exact absurd (matchesYMD_of_specYMD l r hs) hymd
    by_cases hdmy : matchesDMY l = true
    · obtain ⟨d, m, y, hsplit, hd, hm, hy⟩ := matchesDMY_shape l hdmy
      have hl_eq : l = d ++ '/' :: (m ++ '/' :: y) := by
        have hj := joinSep_splitOnChar '/' l
        rw [hsplit] at hj
        rw [← hj]
        rfl
      have hspecD : specDMY l = some ⟨y.asString, m.asString, d.asString⟩ := by
        rw [hl_eq]
        exact specDMY_shape d m y hd hm hy
      unfold parseReleaseDateCore parseReleaseDateSpecCore
      rw [if_neg hymd, if_pos hdmy, hsplit, hspecY, hspecD]
      rfl
    · have hspecD : specDMY l = none := by
        cases hs : specDMY l with
        | none => rfl
        | some r => exact absurd (matchesDMY_of_specDMY l r hs) hdmy
      unfold parseReleaseDateCore parseReleaseDateSpecCore
      rw [if_neg hymd, if_neg hdmy, hspecY, hspecD]
      by_cases h4 : l.length = 4 ∧ l.all isAsciiDigit = true
      · have hdl : digitsLen 4 4 l = true :=
          digitsLen_intro 4 4 l (by omega) (by omega) h4.2
        rw [if_pos hdl]
        unfold specYYYY
        rw [if_pos h4]
        rfl
      · have hdl : digitsLen 4 4 l = false := by
          cases hx : digitsLen 4 4 l
          · rfl
          · obtain ⟨x1, x2, x3⟩ := digitsLen_all 4 4 l hx
            exact absurd ⟨by omega, x3⟩ h4
        rw [if_neg (by rw [hdl]; exact Bool.false_ne_true)]
        unfold specYYYY
        rw [if_neg h4]
        rfl

/-! ### Claim theorems -/

/-- C1, counterexample: the stated "if and only if" fails in the ⟸
direction.  The track below has a non-empty trimmed name, a parseable
duration of 70000 ≥ 60000, yet the transformed output is empty: its
`id_artists` field `"[1]"` decodes to a JSON array holding a number, so
`id.trim()` throws and the catch-all drops the record. -/
theorem c1_counterexample :
    jsTrim "A" ≠ "" ∧ jsStringToNumber "70000" = JsNum.fin 70000 ∧
    (60000 : ℚ) ≤ 70000 ∧
    getField c1CounterTrack "name" = some "A" ∧
    getField c1CounterTrack "duration_ms" = some "70000" ∧
    (runFilterTransform 60000 [] [c1CounterTrack]).2 = [] := by
  decide

/-- C1, amended: a track appears in the transformed track output iff its
trimmed `name` is non-empty, its `duration_ms` parses as a number, that
number is ≥ the configured minimum, AND processing its `id_artists` raises
no exception (when it decodes, it must decode to an array of strings).
The output is exactly the enriched survivors in order; a track with
duration exactly 60000 is kept and one with 59999 is dropped. -/
theorem c1_amended_keep_iff :
    ∀ (m : ℚ) (acc : List String) (tracks : List Row),
      ((runFilterTransform m acc tracks).2 =
        (tracks.filter (keepTrack m)).map enrichTrack) ∧
      (∀ t, keepTrack m t = true ↔
        ((∃ n, getField t "name" = some n ∧ jsTrim n ≠ "") ∧
          (trackDuration t).isNaN = false ∧
          (trackDuration t).geQ m = true ∧
          trackThrows t = false)) ∧
      (runFilterTransform 60000 [] [c1ExactTrack]).2 =
        [enrichTrack c1ExactTrack] ∧
      (runFilterTransform 60000 [] [c1ShortTrack]).2 = [] := by
  intro m acc tracks
  exact ⟨runFilterTransform_snd m tracks acc, fun t => keepTrack_iff m t,
    by decide, by decide⟩

/-- C2, counterexample: an artist can appear in the transformed artist
output although NO track at all survives to the transformed track output.
The single input track passes the filter, adds `x1` to the accumulator,
then throws on the non-string element `2` and is dropped. -/
theorem c2_counterexample :
    runTransformation 60000 [c2CounterTrack] [c2CounterArtist] =
      ([], [c2CounterArtist]) := by
  decide

/-- C2, amended: an artist appears in the transformed artist output iff
its `id` is a member of the final accumulator; and every accumulated id
was contributed by some input track that passed the name/duration filter —
but that track may itself have been dropped by the per-row exception
handler after the ids were recorded, so it need not appear in the track
output. -/
theorem c2_amended_referential :
    ∀ (m : ℚ) (tracks artists : List Row),
      (∀ a, a ∈ (runTransformation m tracks artists).2 ↔
        a ∈ artists ∧ ∃ i, getField a "id" = some i ∧
          i ∈ (runFilterTransform m [] tracks).1) ∧
      (∀ i, i ∈ (runFilterTransform m [] tracks).1 →
        ∃ t, t ∈ tracks ∧ trackKeepFilter m t = true ∧
          i ∈ trackContributedIds t) := by
  intro m tracks artists
  constructor
  · intro a
    unfold runTransformation
    rcases hr : runFilterTransform m [] tracks with ⟨acc, trackOut⟩
    simpa using runArtistFilter_mem acc artists a
  · intro i hi
    rcases (runFilterTransform_acc_mem m tracks [] i).mp hi with h | h
    · simp at h
    · exact h

/-- C2 witness: instantiating the provenance half at a concrete run. -/
theorem c2_amended_witness :
    ∃ t, t ∈ [c2WitnessTrack] ∧ trackKeepFilter 60000 t = true ∧
      "x1" ∈ trackContributedIds t :=
  (c2_amended_referential 60000 [c2WitnessTrack] [c2WitnessArtist]).2 "x1"
    (by decide)

/-- C3, counterexample: the claim maps every out-of-range value to `""`,
but the code has no lower-bound check: `Number("-0.1")` is the finite
negative value -1/10, and `transformDanceability` buckets it as `"Low"`
via the `num < 0.5` branch. -/
theorem c3_counterexample :
    jsStringToNumber "-0.1" = JsNum.fin (-(mkRat 1 10)) ∧
    (-(mkRat 1 10) : ℚ) < 0 ∧
    transformDanceability (some "-0.1") = "Low" := by
  decide

/-- C3, amended: `transformDanceability` returns `""` for an absent or
empty string and for non-numeric input; `"Low"` whenever the parsed value
is `< 0.5` (including every negative value — there is no lower-bound
check); `"Medium"` on `[0.5, 0.6]`; `"High"` on `(0.6, 1]`; and `""` only
for parsed values `> 1` (including `Infinity`). `-Infinity` also falls
into the `"Low"` branch. -/
theorem c3_amended_buckets :
    ∀ (s : String) (q : ℚ),
      transformDanceability none = "" ∧
      transformDanceability (some "") = "" ∧
      (s ≠ "" → jsStringToNumber s = JsNum.nan →
        transformDanceability (some s) = "") ∧
      (s ≠ "" → jsStringToNumber s = JsNum.fin q →
        ((q < mkRat 1 2 → transformDanceability (some s) = "Low") ∧
          (mkRat 1 2 ≤ q → q ≤ mkRat 3 5 →
            transformDanceability (some s) = "Medium") ∧
          (mkRat 3 5 < q → q ≤ 1 →
            transformDanceability (some s) = "High") ∧
          (1 < q → transformDanceability (some s) = ""))) ∧
      (s ≠ "" → jsStringToNumber s = JsNum.posInf →
        transformDanceability (some s) = "") ∧
      (s ≠ "" → jsStringToNumber s = JsNum.negInf →
        transformDanceability (some s) = "Low") := by
  intro s q
  refine ⟨rfl, rfl, ?_, ?_, ?_, ?_⟩
  · intro hs hnan
    simp [transformDanceability, hs, hnan, JsNum.isNaN]
  · intro hs hq
    refine ⟨?_, ?_, ?_, ?_⟩
    · intro hlt
      simp [transformDanceability, hs, hq, JsNum.isNaN, JsNum.ltQ, hlt]
    · intro hge hle
      simp [transformDanceability, hs, hq, JsNum.isNaN, JsNum.ltQ,
        JsNum.leQ, not_lt.mpr hge, hle]
    · intro hgt hle
      have hhalf : ¬(q < mkRat 1 2) :=
        not_lt.mpr (le_trans (show mkRat 1 2 ≤ mkRat 3 5 by decide) hgt.le)
      simp [transformDanceability, hs, hq, JsNum.isNaN, JsNum.ltQ,
        JsNum.leQ, hhalf, not_le.mpr hgt, hle]
    · intro hgt
      have h1 : ¬(q < mkRat 1 2) :=
        not_lt.mpr (le_trans (show mkRat 1 2 ≤ (1 : ℚ) by decide) hgt.le)
      have h2 : ¬(q ≤ mkRat 3 5) :=
        not_le.mpr (lt_of_le_of_lt (show mkRat 3 5 ≤ (1 : ℚ) by decide) hgt)
      have h3 : ¬(q ≤ 1) := not_le.mpr hgt
      simp [transformDanceability, hs, hq, JsNum.isNaN, JsNum.ltQ,
        JsNum.leQ, h1, h2, h3]
  · intro hs hinf
    simp [transformDanceability, hs, hinf, JsNum.isNaN, JsNum.ltQ, JsNum.leQ]
  · intro hs hinf
    simp [transformDanceability, hs, hinf, JsNum.isNaN, JsNum.ltQ]

/-- C3 witness: the amended bucket law at `0.5` (Medium boundary) and at
the negative input `-0.1` (Low, not `""`). -/
theorem c3_amended_witness :
    transformDanceability (some "0.5") = "Medium" ∧
    transformDanceability (some "-0.1") = "Low" := by
  constructor
  · exact ((c3_amended_buckets "0.5" (mkRat 1 2)).2.2.2.1 (by decide)
      (by decide)).2.1 (by decide) (by decide)
  · exact ((c3_amended_buckets "-0.1" (-(mkRat 1 10))).2.2.2.1 (by decide)
      (by decide)).1 (by decide)

/-- C4: when `JSON.parse` fails on the quote-normalized `id_artists`, the
record is never dropped for that reason: the whole raw string is treated
as a one-element list, trimmed, and added to the accumulator only if
non-empty, and the (filter-passing) track is emitted enriched. -/
theorem c4_parse_failure_fallback :
    ∀ (m : ℚ) (acc : List String) (t : Row) (raw : String),
      getField t "id_artists" = some raw → raw ≠ "" →
      jsonParse (normalizeQuotes raw) = none →
      trackKeepFilter m t = true →
      filterTransformStep m acc t =
        ((if jsTrim raw = "" then acc else setAdd acc (jsTrim raw)),
          some (enrichTrack t)) := by
  intro m acc t raw hraw hne hparse hk
  have hval : idArtistsValue t = Json.jarr [Json.jstr raw] := by
    unfold idArtistsValue
    rw [hraw]
    simp only [if_neg hne, hparse]
  unfold filterTransformStep
  rw [hk, hval]
  simp [runForEach, forEachAddIds]

/-- C4 witness: a concrete unterminated array literal hits the fallback. -/
theorem c4_witness :
    filterTransformStep 60000 [] c4WitnessTrack =
      ((if jsTrim "[\x27a1\x27" = "" then []
        else setAdd [] (jsTrim "[\x27a1\x27")),
        some (enrichTrack c4WitnessTrack)) :=
  c4_parse_failure_fallback 60000 [] c4WitnessTrack "[\x27a1\x27"
    (by decide) (by decide) (by rfl) (by decide)

/-- C5: an exception thrown while processing one record (the only throw
site after the filter is the `id_artists` array walk) is caught: that
record produces no output, and the run over the remaining records is
exactly the run from the post-step accumulator — later records are
unaffected.  The artist stage's step is total: every record is either
emitted unchanged or dropped. -/
theorem c5_exception_isolated :
    ∀ (m : ℚ) (acc : List String) (t : Row) (rest : List Row),
      trackThrows t = true →
        (filterTransformStep m acc t).2 = none ∧
        (runFilterTransform m acc (t :: rest)).2 =
          (runFilterTransform m (filterTransformStep m acc t).1 rest).2 ∧
        (∀ (allowed : List String) (a : Row),
          artistFilterStep allowed a = none ∨
            artistFilterStep allowed a = some a) := by
  intro m acc t rest ht
  have hdrop : (filterTransformStep m acc t).2 = none := by
    rw [filterTransformStep_snd]
    have hkt : keepTrack m t = false := by
      unfold keepTrack
      rw [ht]
      simp
    rw [hkt]
    simp
  refine ⟨hdrop, ?_, ?_⟩
  · rw [runFilterTransform_cons, hdrop]
  · intro allowed a
    cases hid : getField a "id" with
    | none => exact Or.inl (by simp [artistFilterStep, hid])
    | some i =>
      by_cases hm2 : i ∈ allowed
      · exact Or.inr (by simp [artistFilterStep, hid, hm2])
      · exact Or.inl (by simp [artistFilterStep, hid, hm2])

/-- C5 witness: a concrete record whose `id_artists` decodes to `[null]`
throws, is dropped, and leaves the processing of the next record intact. -/
theorem c5_witness :
    (filterTransformStep 60000 [] c5WitnessTrack).2 = none ∧
    (runFilterTransform 60000 [] [c5WitnessTrack, c5WitnessRest]).2 =
      (runFilterTransform 60000
        (filterTransformStep 60000 [] c5WitnessTrack).1 [c5WitnessRest]).2 ∧
    (∀ (allowed : List String) (a : Row),
      artistFilterStep allowed a = none ∨
        artistFilterStep allowed a = some a) :=
  c5_exception_isolated 60000 [] c5WitnessTrack [c5WitnessRest] (by decide)

/-- C6: `parseReleaseDate` first strips non-printable ASCII and trims,
then matches in order: `YYYY-MM-DD` split on `-`; `D{1,2}/M{1,2}/YYYY`
read as day/month/year; bare 4-digit `YYYY` with empty month and day; and
anything else gives all-empty fields (the function is total, so no
exception is possible).  This is proved as extensional equality with the
spec-modelled parser, plus the spec's four concrete examples. -/
theorem c6_parseReleaseDate_formats :
    ∀ s : String,
      parseReleaseDate s = parseReleaseDateSpec s ∧
      parseReleaseDate "1929-01-12" = ⟨"1929", "01", "12"⟩ ∧
      parseReleaseDate "22/02/1929" = ⟨"1929", "02", "22"⟩ ∧
      parseReleaseDate "1929" = ⟨"1929", "", ""⟩ ∧
      parseReleaseDate "garbage" = ⟨"", "", ""⟩ := by
  intro s
  refine ⟨?_, by decide, by decide, by decide, by decide⟩
  unfold parseReleaseDate parseReleaseDateSpec
  exact parseReleaseDateCore_eq_specCore _

/-- C7: each stage's output is exactly the order-preserving subsequence of
its (enriched, for tracks) input that passes that stage's per-record
filter: the track output is `filter`-then-`map` of the input and a
sublist of the enriched input; the artist output is a `filter` of the
input and a sublist of it.  No reordering, duplication or buffering. -/
theorem c7_order_preserved :
    ∀ (m : ℚ) (acc : List String) (tracks : List Row)
      (allowed : List String) (artists : List Row),
      (runFilterTransform m acc tracks).2 =
        (tracks.filter (keepTrack m)).map enrichTrack ∧
      List.Sublist ((runFilterTransform m acc tracks).2)
        (tracks.map enrichTrack) ∧
      runArtistFilter allowed artists =
        artists.filter (fun a => (artistFilterStep allowed a).isSome) ∧
      List.Sublist (runArtistFilter allowed artists) artists := by
  intro m acc tracks allowed artists
  refine ⟨runFilterTransform_snd m tracks acc, ?_,
    runArtistFilter_eq_filter allowed artists, ?_⟩
  · rw [runFilterTransform_snd m tracks acc]
    exact (List.filter_sublist tracks).map enrichTrack
  · rw [runArtistFilter_eq_filter]
    exact List.filter_sublist artists

/-- C8: the track stage adds exactly the four derived fields — any other
key (including `id_artists` and arbitrary extra CSV columns) reads the
same before and after enrichment, while the four derived fields hold the
derived values — and an artist record that passes the artist stage is
emitted exactly as it came in. -/
theorem c8_frame :
    ∀ (t : Row) (k : String),
      (k ≠ "release_year" → k ≠ "release_month" → k ≠ "release_day" →
        k ≠ "danceability_level" →
        getField (enrichTrack t) k = getField t k) ∧
      getField (enrichTrack t) "release_year" =
        some (parseReleaseDate ((getField t "release_date").getD "")).year ∧
      getField (enrichTrack t) "release_month" =
        some (parseReleaseDate ((getField t "release_date").getD "")).month ∧
      getField (enrichTrack t) "release_day" =
        some (parseReleaseDate ((getField t "release_date").getD "")).day ∧
      getField (enrichTrack t) "danceability_level" =
        some (transformDanceability (getField t "danceability")) ∧
      (∀ (allowed : List String) (a b : Row),
        artistFilterStep allowed a = some b → b = a) := by
  intro t k
  refine ⟨?_, ?_, ?_, ?_, ?_,
    fun allowed a b h => artistFilterStep_eq_some allowed a b h⟩
  · intro h1 h2 h3 h4
    simp only [enrichTrack]
    rw [getField_setField_ne _ _ _ _ h4, getField_setField_ne _ _ _ _ h3,
      getField_setField_ne _ _ _ _ h2, getField_setField_ne _ _ _ _ h1]
  · simp only [enrichTrack]
    rw [getField_setField_ne _ _ _ _ (by decide),
      getField_setField_ne _ _ _ _ (by decide),
      getField_setField_ne _ _ _ _ (by decide), getField_setField_same]
  · simp only [enrichTrack]
    rw [getField_setField_ne _ _ _ _ (by decide),
      getField_setField_ne _ _ _ _ (by decide), getField_setField_same]
  · simp only [enrichTrack]
    rw [getField_setField_ne _ _ _ _ (by decide), getField_setField_same]
  · simp only [enrichTrack]
    rw [getField_setField_same]

/-- C8 witness: a custom CSV column and `id_artists` survive enrichment
unchanged on a concrete record. -/
theorem c8_witness :
    getField (enrichTrack c8WitnessTrack) "custom_col" =
      getField c8WitnessTrack "custom_col" ∧
    getField (enrichTrack c8WitnessTrack) "id_artists" =
      getField c8WitnessTrack "id_artists" := by
  constructor
  · exact (c8_frame c8WitnessTrack "custom_col").1
      (by decide) (by decide) (by decide) (by decide)
  · exact (c8_frame c8WitnessTrack "id_artists").1
      (by decide) (by decide) (by decide) (by decide)

/-- C9: `uploadFileToS3` makes at most `retries` attempts (default 3);
the first successful attempt ends the loop with no further attempts; when
every permitted attempt fails the exhaustion is reported in the returned
outcome rather than thrown; and `runUploads` produces both siblings' joint
results, each depending only on its own upload. -/
theorem c9_upload_bounded_retry :
    ∀ (ok : Nat → Bool) (retries : Nat) (fe ro : Bool),
      (uploadFileToS3 fe ro ok retries).attemptsMade ≤ retries ∧
      (uploadFileToS3 fe ro ok).attemptsMade ≤ 3 ∧
      (∀ k, 1 ≤ k → k ≤ retries → ok k = true →
        (∀ j, 1 ≤ j → j < k → ok j = false) →
        uploadFileToS3 true true ok retries = ⟨k, true⟩) ∧
      ((∀ j, 1 ≤ j → j ≤ retries → ok j = false) →
        uploadFileToS3 true true ok retries = ⟨retries, false⟩) ∧
      (∀ (fe2 ro2 : Bool) (ok2 : Nat → Bool),
        runUploads fe ro ok fe2 ro2 ok2 =
          (uploadFileToS3 fe ro ok, uploadFileToS3 fe2 ro2 ok2)) := by
  intro ok retries fe ro
  refine ⟨?_, ?_, ?_, ?_, fun _ _ _ => rfl⟩
  · unfold uploadFileToS3
    cases fe with
    | false => simp
    | true =>
      cases ro with
      | false => simp
      | true => simpa using uploadAttemptLoop_attempts_le ok retries 1
  · unfold uploadFileToS3
    cases fe with
    | false => simp
    | true =>
      cases ro with
      | false => simp
      | true => simpa using uploadAttemptLoop_attempts_le ok 3 1
  · intro k h1 h2 hk hprev
    unfold uploadFileToS3
    simp only [Bool.not_true, Bool.false_eq_true, if_false]
    have hloop := uploadAttemptLoop_first_success ok retries 1 k h1
      (by omega) hk (fun j hj1 hj2 => hprev j hj1 hj2)
    have hk1 : k - 1 + 1 = k := by omega
    rw [hloop, hk1]
  · intro hall
    unfold uploadFileToS3
    simp only [Bool.not_true, Bool.false_eq_true, if_false]
    exact uploadAttemptLoop_all_fail ok retries 1
      (fun j hj1 hj2 => hall j hj1 (by omega))

/-- C9 witness: with attempt 2 the only success, exactly two attempts are
made; with no successes over 3 permitted attempts, all three are made and
the failure is reported in the result. -/
theorem c9_witness :
    uploadFileToS3 true true (fun n => decide (n = 2)) 3 = ⟨2, true⟩ ∧
    uploadFileToS3 true true (fun _ => false) 3 = ⟨3, false⟩ := by
  constructor
  · exact (c9_upload_bounded_retry (fun n => decide (n = 2)) 3 true
      true).2.2.1 2 (by decide) (by decide) (by decide)
      (fun j h1 h2 => by
        have hj : j = 1 := by omega
        subst hj
        decide)
  · exact (c9_upload_bounded_retry (fun _ => false) 3 true
      true).2.2.2.1 (fun j _ _ => rfl)

/-- C10: the artist stage's membership test is exact string equality —
a record with an `id` field is kept iff that exact string is in the
accumulator — and since the track stage trims every id before
accumulating, an artist whose `id` differs from an accumulated id only by
surrounding whitespace (its trimmed form is accumulated but it is not
trim-invariant) is dropped. -/
theorem c10_exact_membership :
    ∀ (m : ℚ) (tracks : List Row) (a : Row) (i : String),
      (∀ allowed : List String, getField a "id" = some i →
        (artistFilterStep allowed a = some a ↔ i ∈ allowed)) ∧
      (getField a "id" = some i →
        jsTrim i ∈ (runFilterTransform m [] tracks).1 →
        i ≠ jsTrim i →
        artistFilterStep (runFilterTransform m [] tracks).1 a = none) := by
  intro m tracks a i
  constructor
  · intro allowed hid
    exact artistFilterStep_some_iff allowed a i hid
  · intro hid htrim hne
    apply artistFilterStep_none_of_not_mem _ a i hid
    intro hmem
    have hinv := runFilterTransform_trim_inv m tracks [] (by simp) i hmem
    exact hne hinv.symm

/-- C10 witness: the run accumulates the trimmed id `x1`; the artist with
id `" x1 "` is dropped even though its trimmed id is accumulated. -/
theorem c10_witness :
    artistFilterStep (runFilterTransform 60000 [] [c10WitnessTrack]).1
      c10WitnessArtist = none ∧
    jsTrim " x1 " ∈ (runFilterTransform 60000 [] [c10WitnessTrack]).1 := by
  constructor
  · exact (c10_exact_membership 60000 [c10WitnessTrack] c10WitnessArtist
      " x1 ").2 (by decide) (by decide) (by decide)
  · decide
